import Mathlib

/-!
Verification of the file-splitter engine (`src/lib.rs`).

File contents are modelled as `List Nat` (byte sequences).  The SHA-256
digest (from the external `sha2` crate) is modelled as an abstract
parameter `hash : List Nat → String`; feeding it the full buffer models
`calculate_buffer_checksum`, and `calculate_checksum` (which streams a
file through the hasher in 8KB blocks) computes the same digest of the
whole content, so both collapse to `hash content` here.  Gzip
compression and decompression (external `flate2` crate) are modelled as
abstract parameters `gzip, gunzip : List Nat → List Nat`.

Filesystem effects are made explicit: a split returns the list of chunk
files it wrote (name, stored bytes), the manifest value it serialized
(only on success), the trace of plaintext buffers it processed, the
progress/message callback notifications, and its `Result`.  A restore
takes the manifest, a flag for whether the chunks subdirectory exists,
and a lookup function for chunk files, and returns the bytes written to
the output file, the integrity warnings printed, the notifications, and
its `Result`.
-/

namespace FileSplitter

/-- `ChunkInfo` record from `src/lib.rs`: one entry per output chunk. -/
structure ChunkInfo where
  chunk_filename : String
  chunk_size : Nat
  chunk_checksum : Option String
deriving DecidableEq, Repr

/-- `SplitInfo` record from `src/lib.rs`: the manifest for one original file. -/
structure SplitInfo where
  original_filename : String
  original_file_size : Nat
  chunk_limit : Nat
  chunks_sub_dir : String
  chunks : List ChunkInfo
  original_checksum : String
  is_compressed : Bool
deriving DecidableEq, Repr

/-- Errors returned by `split_single_file` (the `anyhow` error raised by the
post-loop size check; I/O errors of the host filesystem are out of scope). -/
inductive SplitError where
  | sizeMismatch (expected actual : Nat)
deriving DecidableEq, Repr

/-- Errors returned by `restore_single_file`. -/
inductive RestoreError where
  | chunkDirNotFound (original_filename chunks_sub_dir : String)
  | chunkOpenFailed (chunk_filename : String)
  | sizeMismatch (expected actual : Nat)
deriving DecidableEq, Repr

/-- Warnings printed by `restore_single_file` via `eprintln` (non-fatal). -/
inductive RestoreWarning where
  | chunkChecksumMismatch (chunk_filename expected actual : String)
  | originalChecksumMismatch (original_filename expected actual : String)
deriving DecidableEq, Repr

/-- Decimal digit character, e.g. `digitChar 7 = Char.ofNat 55`. -/
def digitChar (n : Nat) : Char := Char.ofNat (48 + n)

/-- Decimal rendering of a `u64`, most significant digit first; models the
`Display` formatting used by `format!` in the source. -/
def fmtDecimal (n : Nat) : List Char :=
  if n < 10 then [digitChar n] else fmtDecimal (n / 10) ++ [digitChar (n % 10)]
termination_by n
decreasing_by
  exact Nat.div_lt_self (by omega) (by omega)

/-- Zero padding to a minimum width of 3, modelling the `{:03}` format
specifier: shorter renderings are left-padded with zeros, longer ones are
kept unchanged. -/
def padZero3 (s : List Char) : List Char :=
  List.replicate (3 - s.length) '0' ++ s

/-- Chunk filename built by the split loop:
`format!("{}-{:03}", filename_str, chunk_index)`. -/
def chunkName (fname : String) (i : Nat) : String :=
  fname ++ String.mk ('-' :: padZero3 (fmtDecimal i))

/-- Concatenation of a list of byte buffers. -/
def joinAll {α : Type} : List (List α) → List α
  | [] => []
  | p :: ps => p ++ joinAll ps

section

variable (hash : List Nat → String) (gzip gunzip : List Nat → List Nat)

/-- Bytes of a chunk as stored on disk: the Gzip encoder output when
`compress` is set, the plaintext itself otherwise. -/
def storedBytes (compress : Bool) (p : List Nat) : List Nat :=
  if compress then gzip p else p

/-- Mutable state threaded through the read loop of `split_single_file`:
the `chunks_info` vector, the chunk files written so far, the trace of
`original_chunk_data` buffers processed, `total_bytes_processed`, and the
progress notifications issued. -/
structure SplitLoopState where
  chunks_info : List ChunkInfo
  files : List (String × List Nat)
  plain : List (List Nat)
  total_bytes_processed : Nat
  progress : List (Nat × Nat)
deriving DecidableEq, Repr

/-- One non-final iteration body of the split loop: read
`min size_limit data.length` bytes, hash them, write the (possibly
compressed) chunk file, append the `ChunkInfo`, bump the running total and
report progress. -/
def splitStep (fname : String) (L : Nat) (compress : Bool) (size : Nat)
    (pcb : Bool) (data : List Nat) (idx : Nat) (st : SplitLoopState) :
    SplitLoopState :=
  { chunks_info := st.chunks_info ++
      [⟨chunkName fname (idx + 1), (storedBytes gzip compress (data.take L)).length,
        some (hash (data.take L))⟩],
    files := st.files ++ [(chunkName fname (idx + 1), storedBytes gzip compress (data.take L))],
    plain := st.plain ++ [data.take L],
    total_bytes_processed := st.total_bytes_processed + min L data.length,
    progress := st.progress ++
      (if pcb then [(st.total_bytes_processed + min L data.length, size)] else []) }

/-- The read loop of `split_single_file`.  Each iteration reads up to `L`
bytes (`bytes_read = min L data.length`); on `bytes_read = 0` it stops,
emitting the special empty-file record when nothing was emitted yet and the
original file is empty; otherwise it processes the buffer and stops early
when the read was short (`bytes_read < L`). -/
def splitLoop (fname : String) (L : Nat) (compress : Bool) (size : Nat)
    (pcb : Bool) (data : List Nat) (idx : Nat) (st : SplitLoopState) :
    SplitLoopState :=
  if min L data.length = 0 then
    if st.chunks_info = [] ∧ size = 0 then
      { st with chunks_info := st.chunks_info ++ [⟨fname ++ "-001", 0, some (hash [])⟩] }
    else st
  else if min L data.length < L then
    splitStep hash gzip fname L compress size pcb data idx st
  else
    splitLoop fname L compress size pcb (data.drop L) (idx + 1)
      (splitStep hash gzip fname L compress size pcb data idx st)
termination_by data.length
decreasing_by
  simp only [List.length_drop]
  omega

/-- Message-callback notifications of `split_single_file`: the start
message, the completion message (emitted even when the size check then
fails), and the manifest-saved message (success only). -/
def splitMessages (mcb : Bool) (fname : String) (success : Bool) : List String :=
  if mcb then
    ["Splitting " ++ fname, fname ++ " splitting complete"] ++
      (if success then ["Split info for file " ++ fname ++ " saved"] else [])
  else []

/-- Everything `split_single_file` does: chunk files written, the manifest
serialized to `<fname>_parts/<fname>.json` (only on success), the trace of
plaintext buffers, callback notifications, and the returned `Result`. -/
structure SplitOutcome where
  files : List (String × List Nat)
  split_info : Option SplitInfo
  plainChunks : List (List Nat)
  messages : List String
  progress : List (Nat × Nat)
  result : Except SplitError Unit
deriving Repr

/-- Model of `split_single_file` from `src/lib.rs`.  `filename_str` is the
basename of `file_path`, `content` the file's bytes (so
`original_file_size = content.length`), `pcb`/`mcb` record whether the
optional progress/message callbacks were supplied. -/
def split_single_file (filename_str : String) (content : List Nat)
    (size_limit : Nat) (compress : Bool) (pcb mcb : Bool) : SplitOutcome :=
  let st := splitLoop hash gzip filename_str size_limit compress content.length
    pcb content 0 ⟨[], [], [], 0, []⟩
  if st.total_bytes_processed = content.length then
    { files := st.files,
      split_info := some ⟨filename_str, content.length, size_limit,
        filename_str ++ "_parts", st.chunks_info, hash content, compress⟩,
      plainChunks := st.plain,
      messages := splitMessages mcb filename_str true,
      progress := st.progress,
      result := Except.ok () }
  else
    { files := st.files,
      split_info := none,
      plainChunks := st.plain,
      messages := splitMessages mcb filename_str false,
      progress := st.progress,
      result := Except.error (SplitError.sizeMismatch content.length st.total_bytes_processed) }

/-- Bytes obtained from one chunk file by the restorer: run through
`GzDecoder` when the manifest says the chunks are compressed, read verbatim
otherwise. -/
def decodeChunk (compressed : Bool) (stored : List Nat) : List Nat :=
  if compressed then gunzip stored else stored

/-- Warning emitted for one chunk: present exactly when the record carries a
checksum and the digest of the decoded bytes differs from it. -/
def chunkWarn (c : ChunkInfo) (decoded : List Nat) : List RestoreWarning :=
  match c.chunk_checksum with
  | some expected =>
      if hash decoded ≠ expected then
        [RestoreWarning.chunkChecksumMismatch c.chunk_filename expected (hash decoded)]
      else []
  | none => []

/-- Mutable state threaded through the chunk loop of `restore_single_file`. -/
structure RestoreState where
  output : List Nat
  warnings : List RestoreWarning
  total_written : Nat
  progress : List (Nat × Nat)
deriving DecidableEq, Repr

/-- The chunk loop of `restore_single_file`: open each chunk file in
manifest order (failure to open is fatal and stops the loop), decode it,
verify its checksum (mismatch only appends a warning), append the decoded
bytes to the output and report progress. -/
def restoreLoop (compressed : Bool) (size : Nat) (pcb : Bool)
    (readFile : String → Option (List Nat)) :
    List ChunkInfo → RestoreState → RestoreState × Option RestoreError
  | [], st => (st, none)
  | c :: rest, st =>
    match readFile c.chunk_filename with
    | none => (st, some (RestoreError.chunkOpenFailed c.chunk_filename))
    | some stored =>
        restoreLoop compressed size pcb readFile rest
          { output := st.output ++ decodeChunk gunzip compressed stored,
            warnings := st.warnings ++
              chunkWarn hash c (decodeChunk gunzip compressed stored),
            total_written := st.total_written + (decodeChunk gunzip compressed stored).length,
            progress := st.progress ++
              (if pcb then
                [(st.total_written + (decodeChunk gunzip compressed stored).length, size)]
              else []) }

/-- Everything `restore_single_file` does: bytes left in the output file,
warnings printed, callback notifications, and the returned `Result`. -/
structure RestoreOutcome where
  output : List Nat
  warnings : List RestoreWarning
  messages : List String
  progress : List (Nat × Nat)
  result : Except RestoreError Unit
deriving Repr

/-- Model of `restore_single_file` from `src/lib.rs`.  The output file is
created (truncated) before anything else, so on the missing-directory error
path it is left empty.  `chunksDirExists` models
`input_root_dir.join(chunks_sub_dir).exists()` and `readFile` models
opening and fully reading a chunk file inside that directory. -/
def restore_single_file (file_info : SplitInfo) (chunksDirExists : Bool)
    (readFile : String → Option (List Nat)) (pcb mcb : Bool) : RestoreOutcome :=
  if chunksDirExists = false then
    { output := [],
      warnings := [],
      messages := if mcb then ["Restoring " ++ file_info.original_filename] else [],
      progress := [],
      result := Except.error
        (RestoreError.chunkDirNotFound file_info.original_filename file_info.chunks_sub_dir) }
  else
    match restoreLoop hash gunzip file_info.is_compressed file_info.original_file_size
        pcb readFile file_info.chunks ⟨[], [], 0, []⟩ with
    | (st, some e) =>
        { output := st.output, warnings := st.warnings,
          messages := if mcb then ["Restoring " ++ file_info.original_filename] else [],
          progress := st.progress,
          result := Except.error e }
    | (st, none) =>
        if st.output.length ≠ file_info.original_file_size then
          { output := st.output, warnings := st.warnings,
            messages := if mcb then
              ["Restoring " ++ file_info.original_filename,
               file_info.original_filename ++ " restoration complete"]
            else [],
            progress := st.progress,
            result := Except.error
              (RestoreError.sizeMismatch file_info.original_file_size st.output.length) }
        else
          { output := st.output,
            warnings := st.warnings ++
              (if hash st.output ≠ file_info.original_checksum then
                [RestoreWarning.originalChecksumMismatch file_info.original_filename
                  file_info.original_checksum (hash st.output)]
              else []),
            messages := if mcb then
              ["Restoring " ++ file_info.original_filename,
               file_info.original_filename ++ " restoration complete"]
            else [],
            progress := st.progress,
            result := Except.ok () }

/-- Lookup of a file by name in a directory listing, modelling
`File::open` of a chunk file among the files the split wrote. -/
def findFile : List (String × List Nat) → String → Option (List Nat)
  | [], _ => none
  | (n, d) :: rest, name => if n = name then some d else findFile rest name

/-- Decoded bytes the restorer obtains for one chunk record (meaningful when
the chunk file is readable). -/
def decodedOf (compressed : Bool) (readFile : String → Option (List Nat))
    (c : ChunkInfo) : List Nat :=
  decodeChunk gunzip compressed ((readFile c.chunk_filename).getD [])

/-- Concatenation of the decoded bytes of all chunk records, i.e. the bytes a
fully successful restore writes to the output file. -/
def restoreDecoded (compressed : Bool) (readFile : String → Option (List Nat))
    (chunks : List ChunkInfo) : List Nat :=
  joinAll (chunks.map (decodedOf gunzip compressed readFile))

/-- All chunk-level checksum warnings the restore loop emits. -/
def restoreChunkWarnings (compressed : Bool) (readFile : String → Option (List Nat))
    (chunks : List ChunkInfo) : List RestoreWarning :=
  joinAll (chunks.map fun c => chunkWarn hash c (decodedOf gunzip compressed readFile c))

/-- Specification-side view of the split loop: the successive
`original_chunk_data` buffers (`data.take L` pieces) the loop processes. -/
def splitPieces (L : Nat) (data : List Nat) : List (List Nat) :=
  if L = 0 ∨ data = [] then []
  else data.take L :: splitPieces L (data.drop L)
termination_by data.length
decreasing_by
  simp only [List.length_drop]
  rename_i h
  simp only [not_or] at h
  rcases h with ⟨h0, hd⟩
  have : data.length ≠ 0 := by
    simpa [List.length_eq_zero] using hd
  omega

/-- The `ChunkInfo` records built for consecutive pieces, starting at the
given 1-based sequence number. -/
def recordsFrom (enc : List Nat → List Nat) (fname : String) :
    Nat → List (List Nat) → List ChunkInfo
  | _, [] => []
  | i, p :: ps =>
      ⟨chunkName fname i, (enc p).length, some (hash p)⟩ :: recordsFrom enc fname (i + 1) ps

/-- The chunk files written for consecutive pieces, starting at the given
1-based sequence number. -/
def filesFrom (enc : List Nat → List Nat) (fname : String) :
    Nat → List (List Nat) → List (String × List Nat)
  | _, [] => []
  | i, p :: ps => (chunkName fname i, enc p) :: filesFrom enc fname (i + 1) ps

/-- The progress notifications issued for consecutive pieces, given the
running total before them. -/
def progressFrom (pcb : Bool) (size : Nat) :
    Nat → List (List Nat) → List (Nat × Nat)
  | _, [] => []
  | t, p :: ps =>
      (if pcb then [(t + p.length, size)] else []) ++ progressFrom pcb size (t + p.length) ps

end

/-- Numeric value of a digit character. -/
def digitVal (c : Char) : Nat := c.toNat - 48

/-- Accumulator step when reading a decimal digit string left to right. -/
def decStep (a : Nat) (c : Char) : Nat := 10 * a + digitVal c

/-- Numeric value of a decimal digit string, used to invert `fmtDecimal`. -/
def decValue (s : List Char) : Nat :=
  s.foldl decStep 0

/-! Lemmas about the decimal rendering of sequence numbers. -/

theorem digitVal_digitChar : ∀ d, d < 10 → digitVal (digitChar d) = d := by decide

@[simp]
theorem joinAll_nil {α : Type} : joinAll ([] : List (List α)) = [] := rfl

@[simp]
theorem joinAll_cons {α : Type} (p : List α) (ps : List (List α)) :
    joinAll (p :: ps) = p ++ joinAll ps := rfl

theorem mem_joinAll {α : Type} {a : α} {ps : List (List α)} :
    a ∈ joinAll ps ↔ ∃ p ∈ ps, a ∈ p := by
  induction ps with
  | nil => simp
  | cons p ps ih => simp [ih, List.mem_append, or_and_right, exists_or]

theorem foldl_decStep_replicate (k : Nat) :
    List.foldl decStep 0 (List.replicate k '0') = 0 := by
  induction k with
  | zero => rfl
  | succ n ih =>
      have h0 : decStep 0 '0' = 0 := by decide
      simpa [List.replicate_succ, h0] using ih

theorem decValue_padZero3 (s : List Char) : decValue (padZero3 s) = decValue s := by
  unfold padZero3 decValue
  rw [List.foldl_append, foldl_decStep_replicate]

theorem decValue_fmtDecimal : ∀ n, decValue (fmtDecimal n) = n := by
  intro n
  induction n using Nat.strong_induction_on with
  | _ n ih =>
    rw [fmtDecimal.eq_def]
    by_cases h : n < 10
    · rw [if_pos h]
      have hd := digitVal_digitChar n h
      simp [decValue, decStep, hd]
    · rw [if_neg h]
      unfold decValue
      rw [List.foldl_append]
      have ihm : decValue (fmtDecimal (n / 10)) = n / 10 :=
        ih (n / 10) (Nat.div_lt_self (by omega) (by omega))
      have hm := digitVal_digitChar (n % 10) (Nat.mod_lt n (by omega))
      show decStep ((fmtDecimal (n / 10)).foldl decStep 0) (digitChar (n % 10)) = n
      have : (fmtDecimal (n / 10)).foldl decStep 0 = n / 10 := ihm
      rw [this]
      unfold decStep
      rw [hm]
      omega

theorem fmtDecimal_padZero3_inj {a b : Nat}
    (h : padZero3 (fmtDecimal a) = padZero3 (fmtDecimal b)) : a = b := by
  have h2 := congrArg decValue h
  rwa [decValue_padZero3, decValue_padZero3, decValue_fmtDecimal, decValue_fmtDecimal] at h2

theorem chunkName_inj (fname : String) {a b : Nat}
    (h : chunkName fname a = chunkName fname b) : a = b := by
  apply fmtDecimal_padZero3_inj
  have hd := congrArg String.data h
  rw [chunkName, chunkName, String.data_append, String.data_append] at hd
  have hl := List.append_cancel_left hd
  simpa using hl

theorem chunkName_one (fname : String) : chunkName fname 1 = fname ++ "-001" := by
  unfold chunkName
  have h1 : fmtDecimal 1 = [digitChar 1] := by
    rw [fmtDecimal.eq_def]
    norm_num
  rw [h1]
  congr 1

theorem fmtDecimal_length_pos (n : Nat) : 0 < (fmtDecimal n).length := by
  rw [fmtDecimal.eq_def]
  split <;> simp

theorem fmtDecimal_length_ge : ∀ k n, 10 ^ k ≤ n → k + 1 ≤ (fmtDecimal n).length := by
  intro k
  induction k with
  | zero =>
      intro n h
      have := fmtDecimal_length_pos n
      omega
  | succ k ih =>
      intro n h
      have hpow : (10:Nat) ≤ 10 ^ (k + 1) := by
        calc (10:Nat) = 10 ^ 1 := by norm_num
        _ ≤ 10 ^ (k + 1) := Nat.pow_le_pow_right (by omega) (by omega)
      have h10 : ¬ n < 10 := by omega
      rw [fmtDecimal.eq_def, if_neg h10]
      have hdiv : 10 ^ k ≤ n / 10 := by
        rw [Nat.le_div_iff_mul_le (by omega)]
        calc 10 ^ k * 10 = 10 ^ (k + 1) := by rw [pow_succ]
        _ ≤ n := h
      have := ih (n / 10) hdiv
      simp only [List.length_append, List.length_cons, List.length_nil]
      omega

theorem padZero3_of_ge (s : List Char) (h : 3 ≤ s.length) : padZero3 s = s := by
  unfold padZero3
  rw [Nat.sub_eq_zero_of_le h]
  simp

theorem chunkName_of_ge_1000 (fname : String) (i : Nat) (h : 1000 ≤ i) :
    chunkName fname i = fname ++ String.mk ('-' :: fmtDecimal i) := by
  unfold chunkName
  rw [padZero3_of_ge]
  have h4 := fmtDecimal_length_ge 3 i (by simpa using h)
  omega

/-! Lemmas about `splitPieces`, the specification-side view of the read loop. -/

theorem splitPieces_eq_nil {L : Nat} {data : List Nat} (h : L = 0 ∨ data = []) :
    splitPieces L data = [] := by
  rw [splitPieces.eq_def, if_pos h]

theorem splitPieces_eq_cons {L : Nat} {data : List Nat} (hL : 0 < L) (hd : data ≠ []) :
    splitPieces L data = data.take L :: splitPieces L (data.drop L) := by
  rw [splitPieces.eq_def, if_neg (by simp [hd]; omega)]

theorem joinAll_splitPieces {L : Nat} (hL : 0 < L) (data : List Nat) :
    joinAll (splitPieces L data) = data := by
  have key : ∀ n (data : List Nat), data.length ≤ n → joinAll (splitPieces L data) = data := by
    intro n
    induction n with
    | zero =>
        intro data h
        have hd : data = [] := List.length_eq_zero.mp (by omega)
        simp [hd, splitPieces_eq_nil]
    | succ n ih =>
        intro data h
        by_cases hd : data = []
        · simp [hd, splitPieces_eq_nil]
        · have hlen : 0 < data.length := List.length_pos.mpr hd
          rw [splitPieces_eq_cons hL hd, joinAll_cons,
            ih (data.drop L) (by simp only [List.length_drop]; omega),
            List.take_append_drop]
  exact key data.length data le_rfl

theorem splitPieces_length {L : Nat} (hL : 0 < L) (data : List Nat) (hd : data ≠ []) :
    (splitPieces L data).length = (data.length + L - 1) / L := by
  have key : ∀ n (data : List Nat), data.length ≤ n → data ≠ [] →
      (splitPieces L data).length = (data.length + L - 1) / L := by
    intro n
    induction n with
    | zero =>
        intro data h hd
        exact absurd (List.length_eq_zero.mp (by omega)) hd
    | succ n ih =>
        intro data h hd
        have hlen : 0 < data.length := List.length_pos.mpr hd
        rw [splitPieces_eq_cons hL hd]
        by_cases hdrop : data.drop L = []
        · rw [hdrop, splitPieces_eq_nil (Or.inr rfl)]
          have hle : data.length ≤ L := by
            have := List.drop_eq_nil_iff.mp hdrop
            omega
          have harr : data.length + L - 1 = (data.length - 1) + L := by omega
          rw [List.length_cons, List.length_nil, harr, Nat.add_div_right _ hL,
            Nat.div_eq_of_lt (by omega)]
        · have hgt : L < data.length := by
            rcases Nat.lt_or_ge L data.length with hc | hc
            · exact hc
            · exact absurd (List.drop_eq_nil_iff.mpr hc) hdrop
          have ihd := ih (data.drop L) (by simp only [List.length_drop]; omega) hdrop
          rw [List.length_cons, ihd, List.length_drop]
          have h1 : data.length - L + L - 1 = data.length - 1 := by omega
          have h2 : data.length + L - 1 = (data.length - 1) + L := by omega
          rw [h1, h2, Nat.add_div_right _ hL]
  exact key data.length data le_rfl hd

theorem splitPieces_length_of_dvd {L : Nat} (hL : 0 < L) (data : List Nat)
    (hdvd : L ∣ data.length) :
    ∀ p ∈ splitPieces L data, p.length = L := by
  have key : ∀ n (data : List Nat), data.length ≤ n → L ∣ data.length →
      ∀ p ∈ splitPieces L data, p.length = L := by
    intro n
    induction n with
    | zero =>
        intro data h _
        have hd : data = [] := List.length_eq_zero.mp (by omega)
        simp [hd, splitPieces_eq_nil]
    | succ n ih =>
        intro data h hdvd
        by_cases hd : data = []
        · simp [hd, splitPieces_eq_nil]
        · have hlen : 0 < data.length := List.length_pos.mpr hd
          have hLle : L ≤ data.length := Nat.le_of_dvd hlen hdvd
          rw [splitPieces_eq_cons hL hd]
          intro p hp
          rcases List.mem_cons.mp hp with hp | hp
          · rw [hp, List.length_take]
            omega
          · exact ih (data.drop L) (by simp only [List.length_drop]; omega)
              (by rw [List.length_drop]; exact Nat.dvd_sub' hdvd dvd_rfl) p hp
  exact key data.length data le_rfl hdvd

@[simp]
theorem joinAll_append {α : Type} (a b : List (List α)) :
    joinAll (a ++ b) = joinAll a ++ joinAll b := by
  induction a with
  | nil => simp
  | cons p ps ih => simp [ih]

/-! Characterization of the split read loop. -/

section

variable (hash : List Nat → String) (gzip gunzip : List Nat → List Nat)

theorem splitLoop_stop (fname : String) (L : Nat) (compress : Bool) (size : Nat)
    (pcb : Bool) (data : List Nat) (idx : Nat) (st : SplitLoopState)
    (h : min L data.length = 0) :
    splitLoop hash gzip fname L compress size pcb data idx st =
      if st.chunks_info = [] ∧ size = 0 then
        { st with chunks_info := st.chunks_info ++ [⟨fname ++ "-001", 0, some (hash [])⟩] }
      else st := by
  rw [splitLoop.eq_def, if_pos h]

theorem splitLoop_eq {L : Nat} (hL : 0 < L) (fname : String) (compress : Bool)
    (size : Nat) (pcb : Bool) :
    ∀ data : List Nat, data ≠ [] → ∀ idx st,
    splitLoop hash gzip fname L compress size pcb data idx st =
      { chunks_info := st.chunks_info ++
          recordsFrom hash (storedBytes gzip compress) fname (idx + 1) (splitPieces L data),
        files := st.files ++
          filesFrom (storedBytes gzip compress) fname (idx + 1) (splitPieces L data),
        plain := st.plain ++ splitPieces L data,
        total_bytes_processed := st.total_bytes_processed + data.length,
        progress := st.progress ++
          progressFrom pcb size st.total_bytes_processed (splitPieces L data) } := by
  have key : ∀ n (data : List Nat), data.length ≤ n → data ≠ [] → ∀ idx st,
      splitLoop hash gzip fname L compress size pcb data idx st =
        { chunks_info := st.chunks_info ++
            recordsFrom hash (storedBytes gzip compress) fname (idx + 1) (splitPieces L data),
          files := st.files ++
            filesFrom (storedBytes gzip compress) fname (idx + 1) (splitPieces L data),
          plain := st.plain ++ splitPieces L data,
          total_bytes_processed := st.total_bytes_processed + data.length,
          progress := st.progress ++
            progressFrom pcb size st.total_bytes_processed (splitPieces L data) } := by
    intro n
    induction n with
    | zero =>
        intro data h hd
        exact absurd (List.length_eq_zero.mp (by omega)) hd
    | succ n ih =>
        intro data h hd idx st
        have hlen : 0 < data.length := List.length_pos.mpr hd
        have hmin : ¬ min L data.length = 0 := by omega
        rw [splitLoop.eq_def, if_neg hmin]
        by_cases hshort : min L data.length < L
        · have hlt : data.length < L := by omega
          have hdrop : data.drop L = [] := List.drop_eq_nil_iff.mpr (by omega)
          rw [if_pos hshort, splitPieces_eq_cons hL hd, hdrop, splitPieces_eq_nil (Or.inr rfl)]
          have htake : (data.take L).length = data.length := by
            rw [List.length_take]; omega
          have hminr : min L data.length = data.length := by omega
          simp [splitStep, recordsFrom, filesFrom, progressFrom, hminr, htake]
        · rw [if_neg hshort]
          have hLle : L ≤ data.length := by omega
          have htake : (data.take L).length = L := by rw [List.length_take]; omega
          have hminL : min L data.length = L := by omega
          by_cases hdrop : data.drop L = []
          · have hlenL : data.length = L := by
              have := List.drop_eq_nil_iff.mp hdrop
              omega
            rw [hdrop, splitLoop_stop hash gzip fname L compress size pcb [] (idx + 1) _
              (by simp)]
            rw [splitPieces_eq_cons hL hd, hdrop, splitPieces_eq_nil (Or.inr rfl)]
            have hne : (splitStep hash gzip fname L compress size pcb data idx st).chunks_info ≠ [] := by
              simp [splitStep]
            rw [if_neg (by simp [hne])]
            simp [splitStep, recordsFrom, filesFrom, progressFrom, hminL, htake, hlenL]
          · have ihd := ih (data.drop L) (by simp only [List.length_drop]; omega) hdrop
              (idx + 1) (splitStep hash gzip fname L compress size pcb data idx st)
            rw [ihd, splitPieces_eq_cons hL hd]
            simp only [splitStep, recordsFrom, filesFrom, progressFrom, hminL, htake,
              List.length_drop, List.append_assoc, List.cons_append, List.nil_append,
              SplitLoopState.mk.injEq]
            refine ⟨trivial, trivial, trivial, by omega, ?_⟩
            simp [htake]
  intro data hd idx st
  exact key data.length data le_rfl hd idx st

theorem splitLoop_total_invariant (fname : String) (L : Nat) (compress : Bool)
    (size : Nat) (pcb : Bool) :
    ∀ data idx (st : SplitLoopState),
      st.total_bytes_processed = (joinAll st.plain).length →
      (splitLoop hash gzip fname L compress size pcb data idx st).total_bytes_processed =
        (joinAll (splitLoop hash gzip fname L compress size pcb data idx st).plain).length := by
  have key : ∀ n data, data.length ≤ n → ∀ idx (st : SplitLoopState),
      st.total_bytes_processed = (joinAll st.plain).length →
      (splitLoop hash gzip fname L compress size pcb data idx st).total_bytes_processed =
        (joinAll (splitLoop hash gzip fname L compress size pcb data idx st).plain).length := by
    intro n
    induction n with
    | zero =>
        intro data h idx st hst
        have hd : data = [] := List.length_eq_zero.mp (by omega)
        subst hd
        rw [splitLoop_stop hash gzip fname L compress size pcb [] idx st (by simp)]
        split <;> simpa
    | succ n ih =>
        intro data h idx st hst
        by_cases hmin : min L data.length = 0
        · rw [splitLoop_stop hash gzip fname L compress size pcb data idx st hmin]
          split <;> simpa
        · have hlen : 0 < data.length := by omega
          have hLpos : 0 < L := by omega
          rw [splitLoop.eq_def, if_neg hmin]
          have hstep : (splitStep hash gzip fname L compress size pcb data idx st).total_bytes_processed =
              (joinAll (splitStep hash gzip fname L compress size pcb data idx st).plain).length := by
            simp [splitStep, hst, List.length_take]
          by_cases hshort : min L data.length < L
          · rw [if_pos hshort]
            exact hstep
          · rw [if_neg hshort]
            exact ih (data.drop L) (by simp only [List.length_drop]; omega) (idx + 1) _ hstep
  intro data idx st hst
  exact key data.length data le_rfl idx st hst

/-! Evaluation of `split_single_file` in the three qualitative regimes. -/

theorem split_eq_of_pos {L : Nat} (hL : 0 < L) (fname : String) (content : List Nat)
    (compress : Bool) (pcb mcb : Bool) (hc : content ≠ []) :
    split_single_file hash gzip fname content L compress pcb mcb =
      { files := filesFrom (storedBytes gzip compress) fname 1 (splitPieces L content),
        split_info := some ⟨fname, content.length, L, fname ++ "_parts",
          recordsFrom hash (storedBytes gzip compress) fname 1 (splitPieces L content),
          hash content, compress⟩,
        plainChunks := splitPieces L content,
        messages := splitMessages mcb fname true,
        progress := progressFrom pcb content.length 0 (splitPieces L content),
        result := Except.ok () } := by
  unfold split_single_file
  rw [splitLoop_eq hash gzip hL fname compress content.length pcb content hc 0
    ⟨[], [], [], 0, []⟩]
  simp

theorem split_eq_empty (fname : String) (L : Nat) (compress : Bool) (pcb mcb : Bool) :
    split_single_file hash gzip fname [] L compress pcb mcb =
      { files := [],
        split_info := some ⟨fname, 0, L, fname ++ "_parts",
          [⟨fname ++ "-001", 0, some (hash [])⟩], hash [], compress⟩,
        plainChunks := [],
        messages := splitMessages mcb fname true,
        progress := [],
        result := Except.ok () } := by
  unfold split_single_file
  rw [splitLoop_stop hash gzip fname L compress ([] : List Nat).length pcb [] 0
    ⟨[], [], [], 0, []⟩ (by simp)]
  simp

theorem split_eq_zero_limit (fname : String) (content : List Nat) (compress : Bool)
    (pcb mcb : Bool) (hc : content ≠ []) :
    split_single_file hash gzip fname content 0 compress pcb mcb =
      { files := [], split_info := none, plainChunks := [],
        messages := splitMessages mcb fname false, progress := [],
        result := Except.error (SplitError.sizeMismatch content.length 0) } := by
  unfold split_single_file
  rw [splitLoop_stop hash gzip fname 0 compress content.length pcb content 0
    ⟨[], [], [], 0, []⟩ (by simp)]
  have hlen : content.length ≠ 0 := by
    simpa [List.length_eq_zero] using hc
  simp [hlen]
  omega

end

/-! Lemmas about the per-piece record, file and lookup structure. -/

section

variable (hash : List Nat → String) (gzip gunzip : List Nat → List Nat)

theorem recordsFrom_length (enc : List Nat → List Nat) (fname : String) :
    ∀ ps i, (recordsFrom hash enc fname i ps).length = ps.length := by
  intro ps
  induction ps with
  | nil => intro i; rfl
  | cons p ps ih => intro i; simp [recordsFrom, ih]

theorem recordsFrom_getD (enc : List Nat → List Nat) (fname : String) :
    ∀ ps i j, j < ps.length →
      (recordsFrom hash enc fname i ps).getD j ⟨"", 0, none⟩ =
        ⟨chunkName fname (i + j), (enc (ps.getD j [])).length, some (hash (ps.getD j []))⟩ := by
  intro ps
  induction ps with
  | nil => intro i j h; simp at h
  | cons p ps ih =>
      intro i j h
      cases j with
      | zero => simp [recordsFrom]
      | succ j =>
          have hidx : i + (j + 1) = (i + 1) + j := by omega
          simp only [recordsFrom, List.getD_cons_succ, hidx]
          exact ih (i + 1) j (by simpa using h)

theorem mem_recordsFrom (enc : List Nat → List Nat) (fname : String) :
    ∀ ps i c, c ∈ recordsFrom hash enc fname i ps →
      ∃ j, j < ps.length ∧
        c = ⟨chunkName fname (i + j), (enc (ps.getD j [])).length, some (hash (ps.getD j []))⟩ := by
  intro ps
  induction ps with
  | nil => intro i c h; simp [recordsFrom] at h
  | cons p ps ih =>
      intro i c h
      simp only [recordsFrom] at h
      rcases List.mem_cons.mp h with h | h
      · exact ⟨0, by simp, by simpa using h⟩
      · rcases ih (i + 1) c h with ⟨j, hj, hc⟩
        refine ⟨j + 1, by simp; omega, ?_⟩
        rw [hc]
        have hidx : i + (j + 1) = (i + 1) + j := by omega
        simp [hidx]

theorem findFile_filesFrom (enc : List Nat → List Nat) (fname : String) :
    ∀ ps i j, j < ps.length →
      findFile (filesFrom enc fname i ps) (chunkName fname (i + j)) =
        some (enc (ps.getD j [])) := by
  intro ps
  induction ps with
  | nil => intro i j h; simp at h
  | cons p ps ih =>
      intro i j h
      cases j with
      | zero => simp [filesFrom, findFile]
      | succ j =>
          have hne : chunkName fname i ≠ chunkName fname (i + (j + 1)) := by
            intro he
            have := chunkName_inj fname he
            omega
          have hidx : i + (j + 1) = (i + 1) + j := by omega
          simp only [filesFrom, findFile, List.getD_cons_succ, if_neg hne]
          rw [hidx]
          exact ih (i + 1) j (by simpa using h)

/-! Characterization of the restore loop and of `restore_single_file` when the
chunk directory exists and every chunk file is readable. -/

theorem restoreLoop_ok (compressed : Bool) (size : Nat) (pcb : Bool)
    (readFile : String → Option (List Nat)) :
    ∀ (chunks : List ChunkInfo) (st : RestoreState),
      (∀ c ∈ chunks, (readFile c.chunk_filename).isSome) →
      ∃ st' : RestoreState,
        restoreLoop hash gunzip compressed size pcb readFile chunks st = (st', none) ∧
        st'.output = st.output ++ restoreDecoded gunzip compressed readFile chunks ∧
        st'.warnings = st.warnings ++ restoreChunkWarnings hash gunzip compressed readFile chunks := by
  intro chunks
  induction chunks with
  | nil =>
      intro st _
      exact ⟨st, rfl, by simp [restoreDecoded], by simp [restoreChunkWarnings]⟩
  | cons c rest ih =>
      intro st h
      have hc := h c (List.mem_cons_self c rest)
      rcases Option.isSome_iff_exists.mp hc with ⟨d, hd⟩
      have hrest : ∀ x ∈ rest, (readFile x.chunk_filename).isSome :=
        fun x hm => h x (List.mem_cons_of_mem _ hm)
      rcases ih
        { output := st.output ++ decodeChunk gunzip compressed d,
          warnings := st.warnings ++ chunkWarn hash c (decodeChunk gunzip compressed d),
          total_written := st.total_written + (decodeChunk gunzip compressed d).length,
          progress := st.progress ++
            (if pcb then
              [(st.total_written + (decodeChunk gunzip compressed d).length, size)]
            else []) } hrest with ⟨st', h1, h2, h3⟩
      refine ⟨st', ?_, ?_, ?_⟩
      · rw [restoreLoop, hd]
        exact h1
      · rw [h2]
        simp [restoreDecoded, decodedOf, hd, List.append_assoc]
      · rw [h3]
        simp [restoreChunkWarnings, decodedOf, hd, List.append_assoc]

theorem restore_char (file_info : SplitInfo) (readFile : String → Option (List Nat))
    (pcb mcb : Bool)
    (hr : ∀ c ∈ file_info.chunks, (readFile c.chunk_filename).isSome) :
    (restore_single_file hash gunzip file_info true readFile pcb mcb).output =
      restoreDecoded gunzip file_info.is_compressed readFile file_info.chunks ∧
    (restore_single_file hash gunzip file_info true readFile pcb mcb).result =
      (if (restoreDecoded gunzip file_info.is_compressed readFile file_info.chunks).length =
          file_info.original_file_size
       then Except.ok ()
       else Except.error (RestoreError.sizeMismatch file_info.original_file_size
         (restoreDecoded gunzip file_info.is_compressed readFile file_info.chunks).length)) ∧
    (restore_single_file hash gunzip file_info true readFile pcb mcb).warnings =
      restoreChunkWarnings hash gunzip file_info.is_compressed readFile file_info.chunks ++
      (if (restoreDecoded gunzip file_info.is_compressed readFile file_info.chunks).length =
            file_info.original_file_size ∧
          hash (restoreDecoded gunzip file_info.is_compressed readFile file_info.chunks) ≠
            file_info.original_checksum
       then [RestoreWarning.originalChecksumMismatch file_info.original_filename
         file_info.original_checksum
         (hash (restoreDecoded gunzip file_info.is_compressed readFile file_info.chunks))]
       else []) := by
  rcases restoreLoop_ok hash gunzip file_info.is_compressed file_info.original_file_size
    pcb readFile file_info.chunks ⟨[], [], 0, []⟩ hr with ⟨st', h1, h2, h3⟩
  simp only [List.nil_append] at h2 h3
  unfold restore_single_file
  rw [if_neg (by simp)]
  simp only [h1]
  by_cases hsize : (restoreDecoded gunzip file_info.is_compressed readFile
      file_info.chunks).length = file_info.original_file_size
  · by_cases hcs : hash (restoreDecoded gunzip file_info.is_compressed readFile
        file_info.chunks) = file_info.original_checksum
    · refine ⟨?_, ?_, ?_⟩ <;> simp [h2, h3, hsize, hcs]
    · refine ⟨?_, ?_, ?_⟩ <;> simp [h2, h3, hsize, hcs]
  · refine ⟨?_, ?_, ?_⟩ <;> simp [h2, h3, hsize]

theorem restoreDecoded_recordsFrom (enc : List Nat → List Nat) (fname : String)
    (compressed : Bool) (readFile : String → Option (List Nat))
    (hdec : ∀ p, decodeChunk gunzip compressed (enc p) = p) :
    ∀ ps i, (∀ j, j < ps.length → readFile (chunkName fname (i + j)) = some (enc (ps.getD j []))) →
      (recordsFrom hash enc fname i ps).map (decodedOf gunzip compressed readFile) = ps := by
  intro ps
  induction ps with
  | nil => intro i _; rfl
  | cons p ps ih =>
      intro i h
      have h0 := h 0 (by simp)
      simp only [Nat.add_zero, List.getD_cons_zero] at h0
      have htail : ∀ j, j < ps.length →
          readFile (chunkName fname ((i + 1) + j)) = some (enc (ps.getD j [])) := by
        intro j hj
        have := h (j + 1) (by simpa using hj)
        have hidx : i + (j + 1) = (i + 1) + j := by omega
        simpa [hidx] using this
      simp only [recordsFrom, List.map_cons, decodedOf, h0, Option.getD_some, hdec,
        ih (i + 1) htail]

end

/-! Claim theorems. -/

/-- C2 (confirmed): with a positive chunk limit the split succeeds and its
manifest has `ceil(S / L)` chunk records when `S > 0` and exactly one when
`S = 0`; when `S` is a positive multiple of `L` there are `S / L` records and
every plaintext chunk processed by the loop, the last one included, has
length exactly `L`, i.e. there is no trailing zero-length chunk. -/
theorem claim2_chunk_count (hash : List Nat → String) (gzip : List Nat → List Nat)
    (fname : String) (content : List Nat) (L : Nat) (compress : Bool) (pcb mcb : Bool)
    (hL : 0 < L) :
    ∃ info : SplitInfo,
      (split_single_file hash gzip fname content L compress pcb mcb).split_info = some info ∧
      info.chunks.length = (if content.length = 0 then 1 else (content.length + L - 1) / L) ∧
      (∀ k, 0 < k → content.length = k * L →
        info.chunks.length = k ∧
        (split_single_file hash gzip fname content L compress pcb mcb).plainChunks.length = k ∧
        (∀ p ∈ (split_single_file hash gzip fname content L compress pcb mcb).plainChunks,
          p.length = L) ∧
        ((split_single_file hash gzip fname content L compress pcb mcb).plainChunks.getD
          (k - 1) []).length = L) := by
  by_cases hc : content = []
  · subst hc
    rw [split_eq_empty]
    refine ⟨_, rfl, by simp, ?_⟩
    intro k hk hkl
    have := Nat.mul_pos hk hL
    simp at hkl
    omega
  · rw [split_eq_of_pos hash gzip hL fname content compress pcb mcb hc]
    have hlen0 : content.length ≠ 0 := by simpa [List.length_eq_zero] using hc
    have hplen := splitPieces_length hL content hc
    refine ⟨_, rfl, ?_, ?_⟩
    · simp only [recordsFrom_length, hplen, if_neg hlen0]
    · intro k hk hkl
      have hdvd : L ∣ content.length := by
        rw [hkl]
        exact dvd_mul_left L k
      have hall := splitPieces_length_of_dvd hL content hdvd
      have hcount : (splitPieces L content).length = k := by
        rw [hplen, hkl, Nat.mul_comm k L]
        have harr : L * k + L - 1 = L * k + (L - 1) := by omega
        rw [harr, Nat.mul_add_div hL, Nat.div_eq_of_lt (by omega)]
        omega
      have hk1 : k - 1 < (splitPieces L content).length := by omega
      refine ⟨by simp only [recordsFrom_length, hcount], by simpa using hcount,
        by simpa using hall, ?_⟩
      simp only [List.getD_eq_getElem _ _ hk1]
      exact hall _ (List.getElem_mem hk1)

/-- C2 witness: splitting four bytes with limit 2 (an exact multiple). -/
theorem claim2_witness :
    0 < 2 ∧
    (∃ info : SplitInfo,
      (split_single_file (fun _ => "h") id "f" [0, 1, 2, 3] 2 false false false).split_info =
        some info ∧
      info.chunks.length = (if ([0, 1, 2, 3] : List Nat).length = 0 then 1
        else (([0, 1, 2, 3] : List Nat).length + 2 - 1) / 2) ∧
      (∀ k, 0 < k → ([0, 1, 2, 3] : List Nat).length = k * 2 →
        info.chunks.length = k ∧
        (split_single_file (fun _ => "h") id "f" [0, 1, 2, 3] 2 false false false).plainChunks.length = k ∧
        (∀ p ∈ (split_single_file (fun _ => "h") id "f" [0, 1, 2, 3] 2 false false false).plainChunks,
          p.length = 2) ∧
        ((split_single_file (fun _ => "h") id "f" [0, 1, 2, 3] 2 false false false).plainChunks.getD
          (k - 1) []).length = 2)) :=
  ⟨by decide, claim2_chunk_count (fun _ => "h") id "f" [0, 1, 2, 3] 2 false false false
    (by decide)⟩

/-- C3 (confirmed): every chunk record of a successful split carries a `some`
checksum equal to the digest of that chunk's uncompressed plaintext bytes (the
pieces whose concatenation is the original content), for both compression
modes. -/
theorem claim3_checksum_plaintext (hash : List Nat → String) (gzip : List Nat → List Nat)
    (fname : String) (content : List Nat) (L : Nat) (compress : Bool) (pcb mcb : Bool)
    (info : SplitInfo)
    (hinfo : (split_single_file hash gzip fname content L compress pcb mcb).split_info =
      some info) :
    (∀ j, j < info.chunks.length →
      (info.chunks.getD j ⟨"", 0, none⟩).chunk_checksum =
        some (hash ((splitPieces L content).getD j []))) ∧
    joinAll (splitPieces L content) = content := by
  by_cases hc : content = []
  · subst hc
    rw [split_eq_empty] at hinfo
    have hi : info = ⟨fname, 0, L, fname ++ "_parts",
        [⟨fname ++ "-001", 0, some (hash [])⟩], hash [], compress⟩ :=
      (Option.some.inj hinfo).symm
    subst hi
    constructor
    · intro j hj
      simp at hj
      subst hj
      simp [splitPieces_eq_nil (Or.inr rfl)]
    · simp [splitPieces_eq_nil (Or.inr rfl)]
  · rcases Nat.eq_zero_or_pos L with hL | hL
    · subst hL
      rw [split_eq_zero_limit hash gzip fname content compress pcb mcb hc] at hinfo
      simp at hinfo
    · rw [split_eq_of_pos hash gzip hL fname content compress pcb mcb hc] at hinfo
      have hi := (Option.some.inj hinfo).symm
      subst hi
      refine ⟨?_, joinAll_splitPieces hL content⟩
      intro j hj
      simp only [recordsFrom_length] at hj
      rw [recordsFrom_getD hash _ fname _ 1 j hj]

/-- C3 witness: a two-byte file split with limit 2 into one chunk. -/
theorem claim3_witness :
    (split_single_file (fun _ => "h") id "f" [5, 6] 2 false false false).split_info =
      some ⟨"f", 2, 2, "f_parts", [⟨"f-001", 2, some "h"⟩], "h", false⟩ ∧
    ((∀ j, j < (SplitInfo.mk "f" 2 2 "f_parts" [⟨"f-001", 2, some "h"⟩] "h" false).chunks.length →
      ((SplitInfo.mk "f" 2 2 "f_parts" [⟨"f-001", 2, some "h"⟩] "h" false).chunks.getD j
          ⟨"", 0, none⟩).chunk_checksum =
        some ((fun _ => "h") ((splitPieces 2 [5, 6]).getD j []))) ∧
    joinAll (splitPieces 2 [5, 6]) = [5, 6]) := by
  have hinfo : (split_single_file (fun _ => "h") id "f" [5, 6] 2 false false false).split_info =
      some ⟨"f", 2, 2, "f_parts", [⟨"f-001", 2, some "h"⟩], "h", false⟩ := by
    rw [split_eq_of_pos (fun _ => "h") id (by decide) "f" [5, 6] false false false (by decide)]
    simp only [splitPieces_eq_cons (by decide : (0:Nat) < 2) (by decide : ([5, 6] : List Nat) ≠ [])]
    rw [splitPieces_eq_nil (Or.inr (by decide))]
    simp [recordsFrom, storedBytes, chunkName_one]
  exact ⟨hinfo,
    claim3_checksum_plaintext (fun _ => "h") id "f" [5, 6] 2 false false false _ hinfo⟩

/-- C5 (confirmed): the split returns `Ok` exactly when the plaintext bytes
processed by the loop sum to the original size, it returns the size-mismatch
error carrying those two numbers otherwise, and the manifest is written
exactly on success (an erroring split writes no manifest). -/
theorem claim5_size_mismatch_gate (hash : List Nat → String) (gzip : List Nat → List Nat)
    (fname : String) (content : List Nat) (L : Nat) (compress : Bool) (pcb mcb : Bool) :
    ((split_single_file hash gzip fname content L compress pcb mcb).result = Except.ok () ↔
      (joinAll (split_single_file hash gzip fname content L compress pcb mcb).plainChunks).length =
        content.length) ∧
    ((split_single_file hash gzip fname content L compress pcb mcb).split_info.isSome ↔
      (split_single_file hash gzip fname content L compress pcb mcb).result = Except.ok ()) ∧
    (∀ e, (split_single_file hash gzip fname content L compress pcb mcb).result =
        Except.error e →
      (split_single_file hash gzip fname content L compress pcb mcb).split_info = none ∧
      e = SplitError.sizeMismatch content.length
        (joinAll (split_single_file hash gzip fname content L compress pcb mcb).plainChunks).length) := by
  have hinv := splitLoop_total_invariant hash gzip fname L compress content.length pcb
    content 0 ⟨[], [], [], 0, []⟩ (by simp [joinAll])
  by_cases h : (splitLoop hash gzip fname L compress content.length pcb content 0
      ⟨[], [], [], 0, []⟩).total_bytes_processed = content.length
  · unfold split_single_file
    rw [if_pos h]
    refine ⟨by simp [← hinv, h], by simp, ?_⟩
    intro e he
    simp at he
  · unfold split_single_file
    rw [if_neg h]
    refine ⟨by simp [← hinv, h], by simp, ?_⟩
    intro e he
    refine ⟨rfl, ?_⟩
    have : e = SplitError.sizeMismatch content.length
        (splitLoop hash gzip fname L compress content.length pcb content 0
          ⟨[], [], [], 0, []⟩).total_bytes_processed := by
      simpa using he.symm
    rw [this, hinv]

/-- C5 witness: the size-check gate evaluated on a concrete one-byte split. -/
theorem claim5_witness :
    ((split_single_file (fun _ => "h") id "f" [1] 2 false false false).result =
        Except.ok () ↔
      (joinAll (split_single_file (fun _ => "h") id "f" [1] 2 false false false).plainChunks).length =
        ([1] : List Nat).length) ∧
    ((split_single_file (fun _ => "h") id "f" [1] 2 false false false).split_info.isSome ↔
      (split_single_file (fun _ => "h") id "f" [1] 2 false false false).result =
        Except.ok ()) ∧
    (∀ e, (split_single_file (fun _ => "h") id "f" [1] 2 false false false).result =
        Except.error e →
      (split_single_file (fun _ => "h") id "f" [1] 2 false false false).split_info = none ∧
      e = SplitError.sizeMismatch ([1] : List Nat).length
        (joinAll (split_single_file (fun _ => "h") id "f" [1] 2 false false false).plainChunks).length) :=
  claim5_size_mismatch_gate (fun _ => "h") id "f" [1] 2 false false false

/-- C8 (confirmed): chunk filenames are the basename, a hyphen and the 1-based
sequence number zero-padded to 3 digits; at or past 1000 the padding is a
no-op and the counter is rendered in full, and the rendered suffix always
decodes back to the sequence number (no wrapping or truncation). -/
theorem claim8_chunk_names (hash : List Nat → String) (gzip : List Nat → List Nat)
    (fname : String) (content : List Nat) (L : Nat) (compress : Bool) (pcb mcb : Bool)
    (hL : 0 < L) (info : SplitInfo)
    (hinfo : (split_single_file hash gzip fname content L compress pcb mcb).split_info =
      some info) :
    (∀ j, j < info.chunks.length →
      (info.chunks.getD j ⟨"", 0, none⟩).chunk_filename = chunkName fname (j + 1)) ∧
    (∀ i, 1000 ≤ i → chunkName fname i = fname ++ String.mk ('-' :: fmtDecimal i)) ∧
    (∀ i, decValue (padZero3 (fmtDecimal i)) = i) := by
  refine ⟨?_, fun i hi => chunkName_of_ge_1000 fname i hi,
    fun i => by rw [decValue_padZero3, decValue_fmtDecimal]⟩
  by_cases hc : content = []
  · subst hc
    rw [split_eq_empty] at hinfo
    have hi : info = ⟨fname, 0, L, fname ++ "_parts",
        [⟨fname ++ "-001", 0, some (hash [])⟩], hash [], compress⟩ :=
      (Option.some.inj hinfo).symm
    subst hi
    intro j hj
    simp at hj
    subst hj
    simp [(chunkName_one fname).symm]
  · rw [split_eq_of_pos hash gzip hL fname content compress pcb mcb hc] at hinfo
    have hi := (Option.some.inj hinfo).symm
    subst hi
    intro j hj
    simp only [recordsFrom_length] at hj
    rw [recordsFrom_getD hash _ fname _ 1 j hj]
    have hidx : 1 + j = j + 1 := by omega
    rw [hidx]

/-- C8 witness: a three-byte file split with limit 1 into three chunks. -/
theorem claim8_witness :
    0 < 1 ∧
    (split_single_file (fun _ => "h") id "f" [9] 1 false false false).split_info =
      some ⟨"f", 1, 1, "f_parts", [⟨"f-001", 1, some "h"⟩], "h", false⟩ ∧
    ((∀ j, j < (SplitInfo.mk "f" 1 1 "f_parts" [⟨"f-001", 1, some "h"⟩] "h" false).chunks.length →
      ((SplitInfo.mk "f" 1 1 "f_parts" [⟨"f-001", 1, some "h"⟩] "h" false).chunks.getD j
          ⟨"", 0, none⟩).chunk_filename = chunkName "f" (j + 1)) ∧
    (∀ i, 1000 ≤ i → chunkName "f" i = "f" ++ String.mk ('-' :: fmtDecimal i)) ∧
    (∀ i, decValue (padZero3 (fmtDecimal i)) = i)) := by
  have hinfo : (split_single_file (fun _ => "h") id "f" [9] 1 false false false).split_info =
      some ⟨"f", 1, 1, "f_parts", [⟨"f-001", 1, some "h"⟩], "h", false⟩ := by
    rw [split_eq_of_pos (fun _ => "h") id (by decide) "f" [9] false false false (by decide)]
    simp only [splitPieces_eq_cons (by decide : (0:Nat) < 1) (by decide : ([9] : List Nat) ≠ [])]
    rw [splitPieces_eq_nil (Or.inr (by decide))]
    simp [recordsFrom, storedBytes, chunkName_one]
  exact ⟨by decide, hinfo,
    claim8_chunk_names (fun _ => "h") id "f" [9] 1 false false false (by decide) _ hinfo⟩

/-- C9 (confirmed): the presence or absence of the progress and message
callbacks changes neither the chunk files written, nor the manifest, nor the
plaintext trace, nor the returned `Result` of a split. -/
theorem claim9_callbacks_immaterial (hash : List Nat → String) (gzip : List Nat → List Nat)
    (fname : String) (content : List Nat) (L : Nat) (compress : Bool)
    (pcb mcb pcb2 mcb2 : Bool) :
    (split_single_file hash gzip fname content L compress pcb mcb).files =
      (split_single_file hash gzip fname content L compress pcb2 mcb2).files ∧
    (split_single_file hash gzip fname content L compress pcb mcb).split_info =
      (split_single_file hash gzip fname content L compress pcb2 mcb2).split_info ∧
    (split_single_file hash gzip fname content L compress pcb mcb).plainChunks =
      (split_single_file hash gzip fname content L compress pcb2 mcb2).plainChunks ∧
    (split_single_file hash gzip fname content L compress pcb mcb).result =
      (split_single_file hash gzip fname content L compress pcb2 mcb2).result := by
  by_cases hc : content = []
  · subst hc
    rw [split_eq_empty, split_eq_empty]
    exact ⟨rfl, rfl, rfl, rfl⟩
  · rcases Nat.eq_zero_or_pos L with hL | hL
    · subst hL
      rw [split_eq_zero_limit hash gzip fname content compress pcb mcb hc,
        split_eq_zero_limit hash gzip fname content compress pcb2 mcb2 hc]
      exact ⟨rfl, rfl, rfl, rfl⟩
    · rw [split_eq_of_pos hash gzip hL fname content compress pcb mcb hc,
        split_eq_of_pos hash gzip hL fname content compress pcb2 mcb2 hc]
      exact ⟨rfl, rfl, rfl, rfl⟩

/-- C10 (confirmed): splitting a zero-length file returns `Ok` and writes a
manifest with exactly one record named `<basename>-001` of `chunk_size` 0
carrying the empty-buffer checksum, but writes no chunk file at all, so the
recorded chunk filename does not exist in the chunks subdirectory. -/
theorem claim10_empty_file (hash : List Nat → String) (gzip : List Nat → List Nat)
    (fname : String) (L : Nat) (compress : Bool) (pcb mcb : Bool) :
    (split_single_file hash gzip fname [] L compress pcb mcb).result = Except.ok () ∧
    (split_single_file hash gzip fname [] L compress pcb mcb).files = [] ∧
    (split_single_file hash gzip fname [] L compress pcb mcb).split_info =
      some ⟨fname, 0, L, fname ++ "_parts",
        [⟨fname ++ "-001", 0, some (hash [])⟩], hash [], compress⟩ ∧
    findFile (split_single_file hash gzip fname [] L compress pcb mcb).files
      (fname ++ "-001") = none := by
  rw [split_eq_empty]
  exact ⟨rfl, rfl, rfl, rfl⟩

/-- C4 counterexample: calling the split with `chunk_limit = 0` on an existing
readable file does NOT always fail — on an empty file it returns `Ok` (and
writes a manifest), so the claim as stated is false at this input. -/
theorem claim4_counterexample :
    (split_single_file (fun _ => "h") id "f" [] 0 false false false).result =
      Except.ok () ∧
    (split_single_file (fun _ => "h") id "f" [] 0 false false false).split_info ≠ none := by
  rw [split_eq_empty]
  exact ⟨rfl, by simp⟩

/-- C4 (amended): with `chunk_limit = 0` the split never loops forever — it
terminates at once, and whenever the existing readable file is nonempty it
fails fast with a size-mismatch error, writing no manifest and no chunk file;
on an empty file the zero limit is accepted and the split succeeds. -/
theorem claim4_zero_limit_fails_fast (hash : List Nat → String)
    (gzip : List Nat → List Nat) (fname : String) (content : List Nat)
    (compress : Bool) (pcb mcb : Bool) (hc : content ≠ []) :
    (split_single_file hash gzip fname content 0 compress pcb mcb).result =
      Except.error (SplitError.sizeMismatch content.length 0) ∧
    (split_single_file hash gzip fname content 0 compress pcb mcb).split_info = none ∧
    (split_single_file hash gzip fname content 0 compress pcb mcb).files = [] := by
  rw [split_eq_zero_limit hash gzip fname content compress pcb mcb hc]
  exact ⟨rfl, rfl, rfl⟩

/-- C4 witness: the amended behaviour at the one-byte file `[7]`. -/
theorem claim4_witness :
    ([7] : List Nat) ≠ [] ∧
    ((split_single_file (fun _ => "h") id "f" [7] 0 false false false).result =
      Except.error (SplitError.sizeMismatch ([7] : List Nat).length 0) ∧
    (split_single_file (fun _ => "h") id "f" [7] 0 false false false).split_info = none ∧
    (split_single_file (fun _ => "h") id "f" [7] 0 false false false).files = []) :=
  ⟨by decide, claim4_zero_limit_fails_fast (fun _ => "h") id "f" [7] false false false
    (by decide)⟩

/-- C7 (confirmed): when the chunks subdirectory does not exist, the restore
returns the chunk-directory-not-found error, leaves only an empty output
file, and its whole outcome is independent of the chunk-file contents — no
chunk file is opened or read. -/
theorem claim7_missing_chunk_dir (hash : List Nat → String)
    (gunzip : List Nat → List Nat) (info : SplitInfo)
    (readFile : String → Option (List Nat)) (pcb mcb : Bool) :
    (restore_single_file hash gunzip info false readFile pcb mcb).result =
      Except.error (RestoreError.chunkDirNotFound info.original_filename
        info.chunks_sub_dir) ∧
    (restore_single_file hash gunzip info false readFile pcb mcb).output = [] ∧
    (∀ rf1 rf2 : String → Option (List Nat),
      restore_single_file hash gunzip info false rf1 pcb mcb =
        restore_single_file hash gunzip info false rf2 pcb mcb) :=
  ⟨rfl, rfl, fun _ _ => rfl⟩

/-- C6 (confirmed): with the chunk directory present and every chunk file
readable, a chunk-checksum mismatch or a whole-file checksum mismatch is
reported as a warning while the restore still returns `Ok`; the restore
returns an error precisely when the restored output's size differs from the
manifest's `original_file_size`. -/
theorem claim6_checksum_nonfatal_size_fatal (hash : List Nat → String)
    (gunzip : List Nat → List Nat) (info : SplitInfo)
    (readFile : String → Option (List Nat)) (pcb mcb : Bool)
    (hr : ∀ c ∈ info.chunks, (readFile c.chunk_filename).isSome) :
    ((restore_single_file hash gunzip info true readFile pcb mcb).result = Except.ok () ↔
      (restore_single_file hash gunzip info true readFile pcb mcb).output.length =
        info.original_file_size) ∧
    (∀ c ∈ info.chunks, ∀ e, c.chunk_checksum = some e →
      hash (decodedOf gunzip info.is_compressed readFile c) ≠ e →
      RestoreWarning.chunkChecksumMismatch c.chunk_filename e
          (hash (decodedOf gunzip info.is_compressed readFile c)) ∈
        (restore_single_file hash gunzip info true readFile pcb mcb).warnings) ∧
    ((restore_single_file hash gunzip info true readFile pcb mcb).output.length =
        info.original_file_size →
      hash (restore_single_file hash gunzip info true readFile pcb mcb).output ≠
        info.original_checksum →
      (restore_single_file hash gunzip info true readFile pcb mcb).result = Except.ok () ∧
      RestoreWarning.originalChecksumMismatch info.original_filename
          info.original_checksum
          (hash (restore_single_file hash gunzip info true readFile pcb mcb).output) ∈
        (restore_single_file hash gunzip info true readFile pcb mcb).warnings) := by
  rcases restore_char hash gunzip info readFile pcb mcb hr with ⟨ho, hres, hwarn⟩
  refine ⟨?_, ?_, ?_⟩
  · rw [hres, ho]
    by_cases hsize : (restoreDecoded gunzip info.is_compressed readFile info.chunks).length =
        info.original_file_size
    · simp [hsize]
    · simp [hsize]
  · intro c hc e hce hne
    rw [hwarn]
    apply List.mem_append_left
    rw [restoreChunkWarnings]
    rw [mem_joinAll]
    refine ⟨chunkWarn hash c (decodedOf gunzip info.is_compressed readFile c),
      List.mem_map_of_mem _ hc, ?_⟩
    rw [chunkWarn, hce]
    simp [hne]
  · intro hsize hcs
    rw [ho] at hsize
    rw [ho] at hcs
    constructor
    · rw [hres, if_pos hsize]
    · rw [hwarn, ho]
      apply List.mem_append_right
      rw [if_pos ⟨hsize, hcs⟩]
      simp

/-- C6 witness: one readable chunk whose recorded checksum differs from the
recomputed digest; the restore still succeeds and reports warnings. -/
theorem claim6_witness :
    (∀ c ∈ (SplitInfo.mk "f" 1 1 "f_parts" [⟨"f-001", 1, some "x"⟩] "y" false).chunks,
      ((fun n => if n = "f-001" then some [5] else none) c.chunk_filename).isSome) ∧
    (((restore_single_file (fun _ => "h") id
        ⟨"f", 1, 1, "f_parts", [⟨"f-001", 1, some "x"⟩], "y", false⟩ true
        (fun n => if n = "f-001" then some [5] else none) false false).result =
          Except.ok () ↔
      (restore_single_file (fun _ => "h") id
        ⟨"f", 1, 1, "f_parts", [⟨"f-001", 1, some "x"⟩], "y", false⟩ true
        (fun n => if n = "f-001" then some [5] else none) false false).output.length =
        (SplitInfo.mk "f" 1 1 "f_parts" [⟨"f-001", 1, some "x"⟩] "y" false).original_file_size) ∧
    (∀ c ∈ (SplitInfo.mk "f" 1 1 "f_parts" [⟨"f-001", 1, some "x"⟩] "y" false).chunks,
      ∀ e, c.chunk_checksum = some e →
      (fun _ => "h") (decodedOf id false (fun n => if n = "f-001" then some [5] else none) c) ≠ e →
      RestoreWarning.chunkChecksumMismatch c.chunk_filename e
          ((fun _ => "h") (decodedOf id false (fun n => if n = "f-001" then some [5] else none) c)) ∈
        (restore_single_file (fun _ => "h") id
          ⟨"f", 1, 1, "f_parts", [⟨"f-001", 1, some "x"⟩], "y", false⟩ true
          (fun n => if n = "f-001" then some [5] else none) false false).warnings) ∧
    ((restore_single_file (fun _ => "h") id
        ⟨"f", 1, 1, "f_parts", [⟨"f-001", 1, some "x"⟩], "y", false⟩ true
        (fun n => if n = "f-001" then some [5] else none) false false).output.length =
        (SplitInfo.mk "f" 1 1 "f_parts" [⟨"f-001", 1, some "x"⟩] "y" false).original_file_size →
      (fun _ => "h") (restore_single_file (fun _ => "h") id
        ⟨"f", 1, 1, "f_parts", [⟨"f-001", 1, some "x"⟩], "y", false⟩ true
        (fun n => if n = "f-001" then some [5] else none) false false).output ≠
        (SplitInfo.mk "f" 1 1 "f_parts" [⟨"f-001", 1, some "x"⟩] "y" false).original_checksum →
      (restore_single_file (fun _ => "h") id
        ⟨"f", 1, 1, "f_parts", [⟨"f-001", 1, some "x"⟩], "y", false⟩ true
        (fun n => if n = "f-001" then some [5] else none) false false).result = Except.ok () ∧
      RestoreWarning.originalChecksumMismatch
          (SplitInfo.mk "f" 1 1 "f_parts" [⟨"f-001", 1, some "x"⟩] "y" false).original_filename
          (SplitInfo.mk "f" 1 1 "f_parts" [⟨"f-001", 1, some "x"⟩] "y" false).original_checksum
          ((fun _ => "h") (restore_single_file (fun _ => "h") id
            ⟨"f", 1, 1, "f_parts", [⟨"f-001", 1, some "x"⟩], "y", false⟩ true
            (fun n => if n = "f-001" then some [5] else none) false false).output) ∈
        (restore_single_file (fun _ => "h") id
          ⟨"f", 1, 1, "f_parts", [⟨"f-001", 1, some "x"⟩], "y", false⟩ true
          (fun n => if n = "f-001" then some [5] else none) false false).warnings)) :=
  ⟨by decide, claim6_checksum_nonfatal_size_fatal (fun _ => "h") id
    ⟨"f", 1, 1, "f_parts", [⟨"f-001", 1, some "x"⟩], "y", false⟩
    (fun n => if n = "f-001" then some [5] else none) false false (by decide)⟩

/-- C1 counterexample: for an empty file the split succeeds but records a
chunk file it never wrote, so restoring its manifest against the files the
split produced fails with a chunk-open error instead of reproducing the
(empty) content — the round trip does not hold for every file content. -/
theorem claim1_counterexample :
    (split_single_file (fun _ => "h") id "f" [] 1 false false false).result =
      Except.ok () ∧
    (split_single_file (fun _ => "h") id "f" [] 1 false false false).split_info =
      some ⟨"f", 0, 1, "f_parts", [⟨"f-001", 0, some "h"⟩], "h", false⟩ ∧
    (restore_single_file (fun _ => "h") id
        ⟨"f", 0, 1, "f_parts", [⟨"f-001", 0, some "h"⟩], "h", false⟩ true
        (findFile (split_single_file (fun _ => "h") id "f" [] 1 false false false).files)
        false false).result =
      Except.error (RestoreError.chunkOpenFailed "f-001") := by
  rw [split_eq_empty]
  refine ⟨rfl, by decide, ?_⟩
  rfl

/-- C1 (amended): for every NONEMPTY file content, every positive chunk limit
and both compression modes (with Gzip decoding inverting encoding), splitting
and then restoring the produced manifest against the chunk files the split
wrote succeeds and writes an output whose bytes are exactly the original
content.  (For a zero-length file the split succeeds but restore fails, since
the single recorded chunk file is never written; see the counterexample.) -/
theorem claim1_roundtrip_nonempty (hash : List Nat → String)
    (gzip gunzip : List Nat → List Nat) (hrt : ∀ x, gunzip (gzip x) = x)
    (fname : String) (content : List Nat) (L : Nat) (compress : Bool)
    (pcb mcb pcb2 mcb2 : Bool) (hc : content ≠ []) (hL : 0 < L) :
    ∃ info : SplitInfo,
      (split_single_file hash gzip fname content L compress pcb mcb).split_info =
        some info ∧
      (split_single_file hash gzip fname content L compress pcb mcb).result =
        Except.ok () ∧
      (restore_single_file hash gunzip info true
        (findFile (split_single_file hash gzip fname content L compress pcb mcb).files)
        pcb2 mcb2).result = Except.ok () ∧
      (restore_single_file hash gunzip info true
        (findFile (split_single_file hash gzip fname content L compress pcb mcb).files)
        pcb2 mcb2).output = content := by
  rw [split_eq_of_pos hash gzip hL fname content compress pcb mcb hc]
  dsimp only
  have hdec : ∀ p, decodeChunk gunzip compress (storedBytes gzip compress p) = p := by
    intro p
    cases compress <;> simp [decodeChunk, storedBytes, hrt]
  have hrf : ∀ j, j < (splitPieces L content).length →
      findFile (filesFrom (storedBytes gzip compress) fname 1 (splitPieces L content))
        (chunkName fname (1 + j)) =
      some (storedBytes gzip compress ((splitPieces L content).getD j [])) :=
    fun j hj => findFile_filesFrom (storedBytes gzip compress) fname
      (splitPieces L content) 1 j hj
  have hmap := restoreDecoded_recordsFrom hash gunzip (storedBytes gzip compress) fname
    compress (findFile (filesFrom (storedBytes gzip compress) fname 1 (splitPieces L content)))
    hdec (splitPieces L content) 1 hrf
  have hr : ∀ c ∈ recordsFrom hash (storedBytes gzip compress) fname 1 (splitPieces L content),
      ((findFile (filesFrom (storedBytes gzip compress) fname 1 (splitPieces L content)))
        c.chunk_filename).isSome := by
    intro c hc2
    rcases mem_recordsFrom hash (storedBytes gzip compress) fname
      (splitPieces L content) 1 c hc2 with ⟨j, hj, hcv⟩
    subst hcv
    simp [hrf j hj]
  rcases restore_char hash gunzip
    ⟨fname, content.length, L, fname ++ "_parts",
      recordsFrom hash (storedBytes gzip compress) fname 1 (splitPieces L content),
      hash content, compress⟩
    (findFile (filesFrom (storedBytes gzip compress) fname 1 (splitPieces L content)))
    pcb2 mcb2 hr with ⟨ho, hres, hwarn⟩
  have hout : restoreDecoded gunzip compress
      (findFile (filesFrom (storedBytes gzip compress) fname 1 (splitPieces L content)))
      (recordsFrom hash (storedBytes gzip compress) fname 1 (splitPieces L content)) =
      content := by
    unfold restoreDecoded
    rw [hmap]
    exact joinAll_splitPieces hL content
  refine ⟨_, rfl, rfl, ?_, ?_⟩
  · rw [hres]
    dsimp only at *
    rw [hout]
    simp
  · rw [ho]
    dsimp only at *
    exact hout

/-- C1 witness for the amended round trip: three bytes, limit 2, compression
on, with the identity codec. -/
theorem claim1_witness :
    (∀ x : List Nat, id (id x) = x) ∧ ([1, 2, 3] : List Nat) ≠ [] ∧ 0 < 2 ∧
    (∃ info : SplitInfo,
      (split_single_file (fun _ => "h") id "f" [1, 2, 3] 2 true false false).split_info =
        some info ∧
      (split_single_file (fun _ => "h") id "f" [1, 2, 3] 2 true false false).result =
        Except.ok () ∧
      (restore_single_file (fun _ => "h") id info true
        (findFile (split_single_file (fun _ => "h") id "f" [1, 2, 3] 2 true false false).files)
        false false).result = Except.ok () ∧
      (restore_single_file (fun _ => "h") id info true
        (findFile (split_single_file (fun _ => "h") id "f" [1, 2, 3] 2 true false false).files)
        false false).output = [1, 2, 3]) :=
  ⟨fun _ => rfl, by decide, by decide,
    claim1_roundtrip_nonempty (fun _ => "h") id id (fun _ => rfl) "f" [1, 2, 3] 2 true
      false false false false (by decide) (by decide)⟩

end FileSplitter
